import Mathlib

/-!
Verification development for the scylla-migrate schema migration engine.

The Go sources are shallowly embedded: Go byte strings become `List Nat`
(each element a byte value < 256), Go rune slices become `List Nat` (each
element a Unicode code point), machine integers become `Nat`/`Int` with
explicit bounds where overflow matters, and effectful code (file system,
database session, clock, sleeping) is modelled by explicit environments and
step functions.  Every definition is translated from the repository sources
(`internal/migration/*.go`, `internal/lock/lock.go`, `cmd/status.go`) or,
for library calls they make (`strings.ReplaceAll`, `strconv.Atoi`,
`crypto/sha256`, `unicode` helpers), from the documented behaviour of the
Go standard library.
-/

set_option maxRecDepth 100000

deriving instance DecidableEq for Except

namespace ScyllaMigrate

/-! ## Byte and rune utilities -/

/-- Code points of a Lean string, modelling a Go `[]rune` of an ASCII string
(and, for valid UTF-8, of any string: UTF-8 byte order equals code-point
order and decoding is injective). -/
def strRunes (s : String) : List Nat := s.data.map Char.toNat

/-- Bytes of an ASCII Lean string, modelling the Go `[]byte` conversion.
Only used with ASCII literals, where bytes and code points coincide. -/
def strBytes (s : String) : List Nat := s.data.map Char.toNat

/-! ## `strings.ReplaceAll(s, "\r\n", "\n")`

Go's `strings.ReplaceAll` scans the original string left to right and
replaces non-overlapping occurrences.  On the byte pattern CR LF this is
exactly the following recursion. -/

def replaceCRLF : List Nat → List Nat
  | 13 :: 10 :: rest => 10 :: replaceCRLF rest
  | c :: rest => c :: replaceCRLF rest
  | [] => []

/-- Returns `true` iff the byte string contains the substring CR CR LF, the only
pattern on which a single left-to-right CRLF→LF pass can leave a fresh CRLF
behind. -/
def hasCRCRLF : List Nat → Bool
  | 13 :: 13 :: 10 :: _ => true
  | _ :: rest => hasCRCRLF rest
  | [] => false

/-! ## SHA-256 (`crypto/sha256`), over byte lists -/

def MOD32 : Nat := 4294967296

def rotr32 (n x : Nat) : Nat := (x / 2 ^ n + x % 2 ^ n * 2 ^ (32 - n)) % MOD32

def shr32 (n x : Nat) : Nat := x / 2 ^ n

def not32 (x : Nat) : Nat := 4294967295 - x % MOD32

def bigSigma0 (x : Nat) : Nat := Nat.xor (Nat.xor (rotr32 2 x) (rotr32 13 x)) (rotr32 22 x)

def bigSigma1 (x : Nat) : Nat := Nat.xor (Nat.xor (rotr32 6 x) (rotr32 11 x)) (rotr32 25 x)

def smallSigma0 (x : Nat) : Nat := Nat.xor (Nat.xor (rotr32 7 x) (rotr32 18 x)) (shr32 3 x)

def smallSigma1 (x : Nat) : Nat := Nat.xor (Nat.xor (rotr32 17 x) (rotr32 19 x)) (shr32 10 x)

def chFn (x y z : Nat) : Nat := Nat.xor (Nat.land x y) (Nat.land (not32 x) z)

def majFn (x y z : Nat) : Nat :=
  Nat.xor (Nat.xor (Nat.land x y) (Nat.land x z)) (Nat.land y z)

def shaK : List Nat :=
  [1116352408, 1899447441, 3049323471, 3921009573, 961987163, 1508970993,
   2453635748, 2870763221, 3624381080, 310598401, 607225278, 1426881987,
   1925078388, 2162078206, 2614888103, 3248222580, 3835390401, 4022224774,
   264347078, 604807628, 770255983, 1249150122, 1555081692, 1996064986,
   2554220882, 2821834349, 2952996808, 3210313671, 3336571891, 3584528711,
   113926993, 338241895, 666307205, 773529912, 1294757372, 1396182291,
   1695183700, 1986661051, 2177026350, 2456956037, 2730485921, 2820302411,
   3259730800, 3345764771, 3516065817, 3600352804, 4094571909, 275423344,
   430227734, 506948616, 659060556, 883997877, 958139571, 1322822218,
   1537002063, 1747873779, 1955562222, 2024104815, 2227730452, 2361852424,
   2428436474, 2756734187, 3204031479, 3329325298]

structure ShaState where
  a : Nat
  b : Nat
  c : Nat
  d : Nat
  e : Nat
  f : Nat
  g : Nat
  h : Nat
deriving DecidableEq

def shaInit : ShaState :=
  ⟨1779033703, 3144134277, 1013904242, 2773480762,
   1359893119, 2600822924, 528734635, 1541459225⟩

/-- Big-endian bytes of `v`, `n` bytes wide. -/
def bytesBE (n v : Nat) : List Nat :=
  (List.range n).map fun i => v / 2 ^ (8 * (n - 1 - i)) % 256

/-- SHA-256 padding: append 128, zeros to 56 mod 64, then the 64-bit
big-endian bit length. -/
def padMessage (msg : List Nat) : List Nat :=
  let L := msg.length
  let z := (119 - L % 64) % 64
  msg ++ 128 :: List.replicate z 0 ++ bytesBE 8 (8 * L % 2 ^ 64)

/-- Fuel-driven chunking into 64-byte blocks (structural, so the kernel can
evaluate it). The fuel `l.length` is always sufficient. -/
def chunk64Go : Nat → List Nat → List (List Nat)
  | 0, _ => []
  | _ + 1, [] => []
  | fuel + 1, c :: rest => (c :: rest).take 64 :: chunk64Go fuel ((c :: rest).drop 64)

def chunk64 (l : List Nat) : List (List Nat) := chunk64Go l.length l

/-- The 16 initial 32-bit big-endian message-schedule words of a block. -/
def msgWords (block : List Nat) : List Nat :=
  (List.range 16).map fun i =>
    block.getD (4 * i) 0 * 16777216 + block.getD (4 * i + 1) 0 * 65536 +
      block.getD (4 * i + 2) 0 * 256 + block.getD (4 * i + 3) 0

def extendWords : Nat → List Nat → List Nat
  | 0, ws => ws
  | n + 1, ws =>
    let t := ws.length
    let w := (smallSigma1 (ws.getD (t - 2) 0) + ws.getD (t - 7) 0 +
      smallSigma0 (ws.getD (t - 15) 0) + ws.getD (t - 16) 0) % MOD32
    extendWords n (ws ++ [w])

def schedule (block : List Nat) : List Nat := extendWords 48 (msgWords block)

def roundStep (ws : List Nat) (st : ShaState) (i : Nat) : ShaState :=
  let t1 := (st.h + bigSigma1 st.e + chFn st.e st.f st.g +
    shaK.getD i 0 + ws.getD i 0) % MOD32
  let t2 := (bigSigma0 st.a + majFn st.a st.b st.c) % MOD32
  ⟨(t1 + t2) % MOD32, st.a, st.b, st.c, (st.d + t1) % MOD32, st.e, st.f, st.g⟩

def compressBlock (st : ShaState) (block : List Nat) : ShaState :=
  let ws := schedule block
  let r := (List.range 64).foldl (roundStep ws) st
  ⟨(st.a + r.a) % MOD32, (st.b + r.b) % MOD32, (st.c + r.c) % MOD32,
   (st.d + r.d) % MOD32, (st.e + r.e) % MOD32, (st.f + r.f) % MOD32,
   (st.g + r.g) % MOD32, (st.h + r.h) % MOD32⟩

def sha256Words (msg : List Nat) : List Nat :=
  let st := (chunk64 (padMessage msg)).foldl compressBlock shaInit
  [st.a, st.b, st.c, st.d, st.e, st.f, st.g, st.h]

/-- Lowercase hex digit of `n < 16`. -/
def hexDigitChar (n : Nat) : Char :=
  Char.ofNat (if n < 10 then 48 + n else 87 + n)

/-- Eight lowercase hex characters of a 32-bit word, most significant first. -/
def wordHex (w : Nat) : List Char :=
  (List.range 8).map fun i => hexDigitChar (w / 16 ^ (7 - i) % 16)

/-- Lowercase hex SHA-256 digest of a byte string, as produced by
`fmt.Sprintf("%x", sha256.Sum256(b))`. -/
def sha256Hex (msg : List Nat) : String :=
  String.mk ((sha256Words msg).foldr (fun w acc => wordHex w ++ acc) [])

/-! ## `CalculateChecksumFromContent` (checksum.go)

The Go function converts the bytes to a string, replaces every CRLF by LF in
one `strings.ReplaceAll` pass, and returns the lowercase hex SHA-256 of the
result.  Its `error` result is always `nil`, so it is modelled as total. -/

def CalculateChecksumFromContent (content : List Nat) : String :=
  sha256Hex (replaceCRLF content)

-- Sanity checks against published SHA-256 test vectors.
example : sha256Hex [] =
    "e3b0c44298fc1c149afbf4c8996fb92427ae41e4649b934ca495991b7852b855" := by decide

example : sha256Hex (strBytes "abc") =
    "ba7816bf8f01cfea414140de5dae2223b00361a396177a9cb410ff61f20015ad" := by decide

/-! ## `strconv.Atoi` and `CompareVersions` (types.go)

`strconv.Atoi` on a 64-bit platform: optional single sign, then decimal
digits; any other character, an empty digit sequence, or a value outside
the `int64` range yields a non-nil error.  Only the error/value pair is
observed by `CompareVersions`, so the model returns `Option Int`. -/

def isDigitChar (c : Char) : Bool := 48 ≤ c.toNat && c.toNat ≤ 57

def digitsVal (l : List Char) : Nat :=
  l.foldl (fun acc c => acc * 10 + (c.toNat - 48)) 0

def maxInt64 : Nat := 9223372036854775807

def atoiCore (neg : Bool) (ds : List Char) : Option Int :=
  if ds = [] then none
  else if ds.all isDigitChar then
    let v := digitsVal ds
    if neg then if v ≤ maxInt64 + 1 then some (-(v : Int)) else none
    else if v ≤ maxInt64 then some (v : Int) else none
  else none

def atoi (s : List Char) : Option Int :=
  match s with
  | [] => none
  | c :: rest =>
    if c = '-' then atoiCore true rest
    else if c = '+' then atoiCore false rest
    else atoiCore false s

/-- Go byte-wise lexicographic `<` on strings.  For valid UTF-8, byte order
coincides with code-point order, so comparing `Char` code points is exact. -/
def lexLt : List Char → List Char → Bool
  | [], [] => false
  | [], _ :: _ => true
  | _ :: _, [] => false
  | c :: cs, d :: ds =>
    if c.toNat < d.toNat then true
    else if d.toNat < c.toNat then false
    else lexLt cs ds

/-- Model of `CompareVersions` (types.go): numeric comparison when both sides parse
with `strconv.Atoi`, lexicographic fallback otherwise. -/
def CompareVersions (a b : String) : Int :=
  match atoi a.data, atoi b.data with
  | some ai, some bi => if ai < bi then -1 else if bi < ai then 1 else 0
  | _, _ =>
    if lexLt a.data b.data then -1
    else if lexLt b.data a.data then 1
    else 0

def signInt (n : Int) : Int := if n < 0 then -1 else if 0 < n then 1 else 0

example : CompareVersions "9" "10" = -1 := by decide
example : CompareVersions "001" "002" = -1 := by decide
example : CompareVersions "abc" "def" = -1 := by decide

/-! ## UTF-8 decoding (`[]rune(s)` conversion)

Go converts a string to runes by repeated `utf8.DecodeRuneInString`; an
invalid encoding yields U+FFFD and consumes one byte. -/

def isCont (b : Nat) : Bool := 128 ≤ b && b ≤ 191

/-- Valid 2-byte UTF-8 sequence head test. -/
def utf8Ok2 (b0 b1 : Nat) : Bool := 194 ≤ b0 && b0 ≤ 223 && isCont b1

/-- Valid 3-byte UTF-8 sequence head test (rejecting overlongs and
surrogates, as Go does). -/
def utf8Ok3 (b0 b1 b2 : Nat) : Bool :=
  224 ≤ b0 && b0 ≤ 239 && isCont b2 &&
    (if b0 = 224 then 160 ≤ b1 && b1 ≤ 191
     else if b0 = 237 then 128 ≤ b1 && b1 ≤ 159
     else isCont b1)

/-- Valid 4-byte UTF-8 sequence head test. -/
def utf8Ok4 (b0 b1 b2 b3 : Nat) : Bool :=
  240 ≤ b0 && b0 ≤ 244 && isCont b2 && isCont b3 &&
    (if b0 = 240 then 144 ≤ b1 && b1 ≤ 191
     else if b0 = 244 then 128 ≤ b1 && b1 ≤ 143
     else isCont b1)

def rune2 (b0 b1 : Nat) : Nat := (b0 - 192) * 64 + (b1 - 128)

def rune3 (b0 b1 b2 : Nat) : Nat := (b0 - 224) * 4096 + (b1 - 128) * 64 + (b2 - 128)

def rune4 (b0 b1 b2 b3 : Nat) : Nat :=
  (b0 - 240) * 262144 + (b1 - 128) * 4096 + (b2 - 128) * 64 + (b3 - 128)

/-- One rune is decoded per step, consuming at least one byte, so fuel equal
to the byte count is always sufficient (structural recursion on the fuel
keeps the definition kernel-evaluable). -/
def utf8DecodeGo : Nat → List Nat → List Nat
  | 0, _ => []
  | _ + 1, [] => []
  | fuel + 1, b0 :: rest =>
    if b0 < 128 then b0 :: utf8DecodeGo fuel rest
    else
      match rest with
      | b1 :: b2 :: b3 :: rest3 =>
        if utf8Ok2 b0 b1 then rune2 b0 b1 :: utf8DecodeGo fuel (b2 :: b3 :: rest3)
        else if utf8Ok3 b0 b1 b2 then rune3 b0 b1 b2 :: utf8DecodeGo fuel (b3 :: rest3)
        else if utf8Ok4 b0 b1 b2 b3 then rune4 b0 b1 b2 b3 :: utf8DecodeGo fuel rest3
        else 65533 :: utf8DecodeGo fuel rest
      | [b1, b2] =>
        if utf8Ok2 b0 b1 then rune2 b0 b1 :: utf8DecodeGo fuel [b2]
        else if utf8Ok3 b0 b1 b2 then [rune3 b0 b1 b2]
        else 65533 :: utf8DecodeGo fuel rest
      | [b1] =>
        if utf8Ok2 b0 b1 then [rune2 b0 b1]
        else 65533 :: utf8DecodeGo fuel rest
      | [] => [65533]

def utf8Decode (l : List Nat) : List Nat := utf8DecodeGo l.length l

-- ASCII bytes decode to themselves.
example : utf8Decode (strBytes "SELECT 1;") = strRunes "SELECT 1;" := by decide
-- The BOM bytes decode to the single code point U+FEFF.
example : utf8Decode [239, 187, 191] = [65279] := by decide

/-! ## `strings.TrimSpace` on rune lists

`unicode.IsSpace`: '\t', '\n', '\v', '\f', '\r', ' ', U+0085, U+00A0, and
the Unicode space runes of category Zs plus U+2028/U+2029. -/

def isSpaceRune (r : Nat) : Bool :=
  r = 9 || r = 10 || r = 11 || r = 12 || r = 13 || r = 32 ||
  r = 133 || r = 160 || r = 5760 || (8192 ≤ r && r ≤ 8202) ||
  r = 8232 || r = 8233 || r = 8239 || r = 8287 || r = 12288

def trimSpace (runes : List Nat) : List Nat :=
  ((runes.dropWhile isSpaceRune).reverse.dropWhile isSpaceRune).reverse

/-! ## The statement splitter (`splitStatements`, parser.go)

A character scanner over the rune slice of the script, with states for
single/double quotes and line/block comments.  The accumulators `cur` and
`acc` are kept reversed for structural recursion; `flush` trims the current
buffer and appends it to the output when non-empty.  Each step consumes one
or two runes, so fuel equal to the rune count suffices. -/

def flushStmt (cur : List Nat) (acc : List (List Nat)) : List (List Nat) :=
  let s := trimSpace cur.reverse
  if s = [] then acc else s :: acc

def splitGo : Nat → Bool → Bool → Bool → Bool → List Nat → List (List Nat) →
    List Nat → Except String (List (List Nat))
  | _, inS, inD, _, inB, cur, acc, [] =>
    if inS then .error "unterminated single quote in CQL"
    else if inD then .error "unterminated double quote in CQL"
    else if inB then .error "unterminated block comment in CQL"
    else .ok (flushStmt cur acc).reverse
  | 0, _, _, _, _, _, acc, _ => .ok acc.reverse
  | fuel + 1, inS, inD, inL, inB, cur, acc, c :: rest =>
    if inL then
      if c = 10 then splitGo fuel inS inD false inB (10 :: cur) acc rest
      else splitGo fuel inS inD true inB cur acc rest
    else if inB then
      match rest with
      | d :: rest1 =>
        if c = 42 ∧ d = 47 then splitGo fuel inS inD inL false cur acc rest1
        else splitGo fuel inS inD inL true cur acc (d :: rest1)
      | [] => splitGo fuel inS inD inL true cur acc []
    else if ¬inS ∧ ¬inD ∧ c = 45 ∧ rest.headD 0 = 45 ∧ rest ≠ [] then
      splitGo fuel inS inD true inB cur acc rest.tail
    else if ¬inS ∧ ¬inD ∧ c = 47 ∧ rest.headD 0 = 42 ∧ rest ≠ [] then
      splitGo fuel inS inD inL true cur acc rest.tail
    else if ¬inD ∧ c = 39 then
      if inS ∧ rest.headD 0 = 39 ∧ rest ≠ [] then
        splitGo fuel inS inD inL inB (39 :: 39 :: cur) acc rest.tail
      else splitGo fuel (!inS) inD inL inB (39 :: cur) acc rest
    else if ¬inS ∧ c = 34 then
      splitGo fuel inS (!inD) inL inB (34 :: cur) acc rest
    else if ¬inS ∧ ¬inD ∧ c = 59 then
      splitGo fuel inS inD inL inB [] (flushStmt cur acc) rest
    else
      splitGo fuel inS inD inL inB (c :: cur) acc rest

def splitStatements (runes : List Nat) : Except String (List (List Nat)) :=
  splitGo runes.length false false false false [] [] runes

-- Scenario checks mirroring parser behaviour.
example : splitStatements (strRunes "CREATE TABLE a (x INT); SELECT 1;") =
    .ok [strRunes "CREATE TABLE a (x INT)", strRunes "SELECT 1"] := by decide
example : splitStatements (strRunes "SELECT 1 -- c") = .ok [strRunes "SELECT 1"] := by
  decide
example : splitStatements (strRunes "SELECT /* c */ 1;") =
    .ok [strRunes "SELECT  1"] := by decide

/-! ## `IsDDL` (parser.go) -/

def toUpperRunes (runes : List Nat) : List Nat :=
  runes.map fun r => if 97 ≤ r ∧ r ≤ 122 then r - 32 else r

def beginsWith : List Nat → List Nat → Bool
  | _, [] => true
  | [], _ :: _ => false
  | c :: cs, p :: ps => c == p && beginsWith cs ps

def IsDDL (stmt : List Nat) : Bool :=
  let up := toUpperRunes (trimSpace stmt)
  beginsWith up (strRunes "CREATE") || beginsWith up (strRunes "ALTER") ||
    beginsWith up (strRunes "DROP")

example : IsDDL (strRunes "  create table t (x int)") = true := by decide
example : IsDDL (strRunes "INSERT INTO t VALUES (1)") = false := by decide

/-! ## `ParseMigrationFile` (parser.go)

The file-system read is supplied by the caller (`readAndParse` below); this
function captures everything after `os.ReadFile` succeeds.  Note the order
of operations from the source: `RawContent` is assigned the BOM-stripped
bytes *before* the CRLF normalization, the checksum is computed from the
normalized bytes (the checksum function replaces CRLF once more), and the
splitter runs on the runes of the normalized bytes. -/

structure ParsedFile where
  rawContent : List Nat
  checksum : String
  statements : List (List Nat)
deriving DecidableEq

def bomBytes : List Nat := [239, 187, 191]

/-- Model of `strings.TrimPrefix(raw, "\xef\xbb\xbf")`. -/
def stripBOM : List Nat → List Nat
  | 239 :: 187 :: 191 :: rest => rest
  | l => l

def ParseMigrationFile (filename : String) (content : List Nat) :
    Except String ParsedFile :=
  let raw := stripBOM content
  let normalized := replaceCRLF raw
  let cksum := CalculateChecksumFromContent normalized
  match splitStatements (utf8Decode normalized) with
  | .error e => .error ("failed to parse CQL statements in " ++ filename ++ ": " ++ e)
  | .ok stmts => .ok ⟨raw, cksum, stmts⟩

/-! ## Data model (types.go, schema/metadata.go)

`Migration.statements` holds rune lists (the Go strings the splitter
produced); `rawContent` holds bytes.  `AppliedMigration.appliedAt` is kept
as the formatted string the status command produces from the row's
timestamp, since only that formatting is ever observed in the modelled
code. -/

inductive MigrationType where
  | versioned
  | undo
  | repeatable
deriving DecidableEq

def migTypeStr : MigrationType → String
  | .versioned => "versioned"
  | .undo => "undo"
  | .repeatable => "repeatable"

structure Migration where
  version : String
  description : String
  type : MigrationType
  filename : String
  filePath : String
  checksum : String
  statements : List (List Nat)
  rawContent : List Nat
deriving DecidableEq

structure AppliedMigration where
  version : String
  description : String
  type : String
  script : String
  checksum : String
  appliedBy : String
  appliedAt : String
  executionTimeMs : Nat
  success : Bool
deriving DecidableEq

/-- The in-place mutation `ParseMigrationFile(mig)` performs on a scanned
migration when it succeeds. -/
def withParsed (m : Migration) (p : ParsedFile) : Migration :=
  { m with checksum := p.checksum, statements := p.statements,
           rawContent := p.rawContent }

/-- Composition of `os.ReadFile` and `ParseMigrationFile`: the file system is a partial map
from paths to byte contents.  (The underlying OS error text is not part of
the repository and is abstracted to a fixed message.) -/
def readAndParse (fs : String → Option (List Nat)) (m : Migration) :
    Except String ParsedFile :=
  match fs m.filePath with
  | none => .error ("failed to read migration file " ++ m.filePath)
  | some content => ParseMigrationFile m.filename content

/-! ## Go maps used by resolver and status

Only insertion and key lookup are performed on these maps, so an
association list with newest-first shadowing is an exact model: a later
`m[k] = v` shadows an earlier one. -/

def alistFind {α : Type} (m : List (String × α)) (k : String) : Option α :=
  (m.find? fun kv => decide (kv.1 = k)).map fun kv => kv.2

def alistInsert {α : Type} (m : List (String × α)) (k : String) (v : α) :
    List (String × α) := (k, v) :: m

/-- The map over applied rows built by iterating `applied` in order and
inserting the rows selected by `f`, keyed by the row's `version` column. -/
def goMapOf (f : AppliedMigration → Bool) (applied : List AppliedMigration) :
    List (String × AppliedMigration) :=
  applied.foldl (fun m a => if f a then alistInsert m a.version a else m) []

/-! ## Resolver (resolver.go) -/

/-- Loop of `GetPendingMigrations`: `appliedMap` keeps every row with
`Success = true` (of any type), keyed by the row's `version`. -/
def getPendingGo (am : List (String × AppliedMigration))
    (fs : String → Option (List Nat)) : List Migration →
    Except String (List Migration)
  | [] => .ok []
  | m :: rest =>
    match m.type with
    | .versioned =>
      match alistFind am m.version with
      | some _ => getPendingGo am fs rest
      | none =>
        match readAndParse fs m with
        | .error e => .error ("failed to parse migration " ++ m.filename ++ ": " ++ e)
        | .ok p => (getPendingGo am fs rest).map fun l => withParsed m p :: l
    | .repeatable =>
      match readAndParse fs m with
      | .error e => .error ("failed to parse migration " ++ m.filename ++ ": " ++ e)
      | .ok p =>
        match alistFind am (m.version ++ "_" ++ m.description) with
        | none => (getPendingGo am fs rest).map fun l => withParsed m p :: l
        | some a =>
          if a.checksum ≠ p.checksum then
            (getPendingGo am fs rest).map fun l => withParsed m p :: l
          else getPendingGo am fs rest
    | .undo => getPendingGo am fs rest

def GetPendingMigrations (migs : List Migration) (fs : String → Option (List Nat))
    (applied : List AppliedMigration) : Except String (List Migration) :=
  getPendingGo (goMapOf (fun a => a.success) applied) fs migs

/-- The `fileMap` of `ValidateAppliedChecksums`: scanned Versioned migrations
keyed by version. -/
def fileMapOf (migs : List Migration) : List (String × Migration) :=
  migs.foldl (fun m mg => if mg.type = .versioned then alistInsert m mg.version mg else m) []

def validateGo (fm : List (String × Migration)) (fs : String → Option (List Nat)) :
    List AppliedMigration → List String
  | [] => []
  | a :: rest =>
    if ¬a.success ∨ a.type = "repeatable" then validateGo fm fs rest
    else
      match alistFind fm a.version with
      | none =>
        ("applied migration V" ++ a.version ++ " (" ++ a.description ++
          ") has no corresponding file") :: validateGo fm fs rest
      | some fileMig =>
        match readAndParse fs fileMig with
        | .error e =>
          ("failed to parse V" ++ a.version ++ " (" ++ a.description ++ "): " ++ e) ::
            validateGo fm fs rest
        | .ok p =>
          if p.checksum ≠ a.checksum then
            ("checksum mismatch for V" ++ a.version ++ " (" ++ a.description ++
              "): recorded=" ++ a.checksum ++ ", current=" ++ p.checksum) ::
              validateGo fm fs rest
          else validateGo fm fs rest

def ValidateAppliedChecksums (migs : List Migration) (fs : String → Option (List Nat))
    (applied : List AppliedMigration) : List String :=
  validateGo (fileMapOf migs) fs applied

/-! ## Status (cmd/status.go, lines 41-113)

The status `appliedMap` is keyed by the row's bare `version` column for
rows of every type and without any success filter; the per-file key adds
`"_<description>"` only for Repeatable files. -/

structure StatusEntry where
  version : String
  description : String
  type : String
  status : String
  appliedAt : String
  checksumMatch : String
deriving DecidableEq

def statusKey (m : Migration) : String :=
  if m.type = .repeatable then m.version ++ "_" ++ m.description else m.version

def statusEntryFor (applied : List AppliedMigration) (m : Migration) : StatusEntry :=
  let base : StatusEntry :=
    ⟨m.version, m.description, migTypeStr m.type, "", "", ""⟩
  match alistFind (goMapOf (fun _ => true) applied) (statusKey m) with
  | some a =>
    { base with
      status := if a.success then "Applied" else "Failed",
      appliedAt := a.appliedAt,
      checksumMatch := if m.checksum = a.checksum then "OK" else "MISMATCH" }
  | none =>
    { base with
      status := if m.type = .undo then "Available" else "Pending",
      appliedAt := "-", checksumMatch := "-" }

/-! ## Lock manager `Acquire` (lock.go, lines 49-109)

Durations are nanoseconds (`time.Duration` units).  The per-iteration
driver behaviour (LWT insert outcome, `GetCurrentLock` result) and the time
those calls consume are supplied by an environment; the model records the
list of `time.Sleep` durations and the final outcome.  Each loop iteration
spends one unit of fuel. -/

inductive LockOutcome where
  /-- The compare-and-set insert was applied. -/
  | applied
  /-- Insert not applied; the LWT itself returned a driver error. -/
  | lwtErr
  /-- Insert not applied; `GetCurrentLock` returned `gocql.ErrNotFound`
  (the lock row is absent). -/
  | absent
  /-- Insert not applied; `GetCurrentLock` returned some other error. -/
  | readErr
  /-- Insert not applied; the current row was read, expiring at `e`. -/
  | held (e : Nat)
deriving DecidableEq

structure AcqEnv where
  outcome : Nat → LockOutcome
  cost : Nat → Nat

inductive AcqResult where
  | acquired
  | errored
  | timedOut
  | fuelExhausted
deriving DecidableEq

structure AcqRun where
  sleeps : List Nat
  result : AcqResult
deriving DecidableEq

def tenSeconds : Nat := 10000000000

def oneSecond : Nat := 1000000000

/-- The `for time.Now().Before(deadline)` loop of `Acquire`.  In the source,
the expired branch executes `continue` (no sleep, backoff untouched), while
the absent/read-error and the held-unexpired branches all fall through to
`time.Sleep(backoff)` followed by `if backoff < 10s { backoff = backoff*2 }`. -/
def acquireLoop (env : AcqEnv) (deadline : Nat) : Nat → Nat → Nat → Nat → AcqRun
  | 0, _, _, _ => ⟨[], .fuelExhausted⟩
  | fuel + 1, k, now, backoff =>
    if now < deadline then
      let now1 := now + env.cost k
      match env.outcome k with
      | .applied => ⟨[], .acquired⟩
      | .lwtErr => ⟨[], .errored⟩
      | .held e =>
        if e < now1 then acquireLoop env deadline fuel (k + 1) now1 backoff
        else
          let r := acquireLoop env deadline fuel (k + 1) (now1 + backoff)
            (if backoff < tenSeconds then backoff * 2 else backoff)
          ⟨backoff :: r.sleeps, r.result⟩
      | .absent =>
        let r := acquireLoop env deadline fuel (k + 1) (now1 + backoff)
          (if backoff < tenSeconds then backoff * 2 else backoff)
        ⟨backoff :: r.sleeps, r.result⟩
      | .readErr =>
        let r := acquireLoop env deadline fuel (k + 1) (now1 + backoff)
          (if backoff < tenSeconds then backoff * 2 else backoff)
        ⟨backoff :: r.sleeps, r.result⟩
    else ⟨[], .timedOut⟩

def Acquire (env : AcqEnv) (timeout start fuel : Nat) : AcqRun :=
  acquireLoop env (start + timeout) fuel 0 start oneSecond

/-! ## Executor `Execute` (executor.go, lines 67-143)

The session, metadata store and clock are an environment: `stmtErr i` is
the error text of executing the `i`-th statement (`none` = success),
`agreeErr i` the outcome of the schema-agreement wait after the `i`-th
statement (consulted only when that statement is DDL), `recordErr` the
outcome of the final `RecordMigration` write, and `stmtTime`/`agreeTime`
the time those calls consume.  `records` collects the `RecordMigration`
calls the executor issues, with the `time.Since(start)` value and success
flag passed to each. -/

structure MigrationRecord where
  version : String
  description : String
  type : String
  filename : String
  checksum : String
deriving DecidableEq

/-- Model of `toRecord` (executor.go): Repeatable rows are keyed
`"<version>_<description>"`. -/
def toRecord (m : Migration) : MigrationRecord :=
  { version := if m.type = .repeatable then m.version ++ "_" ++ m.description
               else m.version
  , description := m.description
  , type := migTypeStr m.type
  , filename := m.filename
  , checksum := m.checksum }

structure ExecEnv where
  stmtErr : Nat → Option String
  agreeErr : Nat → Option String
  recordErr : Option String
  stmtTime : Nat → Nat
  agreeTime : Nat → Nat

structure RecordCall where
  row : MigrationRecord
  duration : Nat
  success : Bool
deriving DecidableEq

structure ExecResult where
  records : List RecordCall
  err : Option String
deriving DecidableEq

def executeLoop (env : ExecEnv) (filename : String) (rec : MigrationRecord) :
    List (List Nat) → Nat → Nat → ExecResult
  | [], _, now =>
    match env.recordErr with
    | none => ⟨[⟨rec, now, true⟩], none⟩
    | some e =>
      ⟨[⟨rec, now, true⟩],
       some ("migration executed successfully but failed to record metadata: " ++ e)⟩
  | stmt :: rest, i, now =>
    let now1 := now + env.stmtTime i
    match env.stmtErr i with
    | some e =>
      ⟨[⟨rec, now1, false⟩],
       some ("failed to execute statement " ++ toString (i + 1) ++ " in " ++
         filename ++ ": " ++ e)⟩
    | none =>
      if IsDDL stmt then
        let now2 := now1 + env.agreeTime i
        match env.agreeErr i with
        | some e =>
          ⟨[⟨rec, now2, false⟩],
           some ("schema agreement timeout after statement " ++ toString (i + 1) ++
             " in " ++ filename ++ ": " ++ e)⟩
        | none => executeLoop env filename rec rest (i + 1) now2
      else executeLoop env filename rec rest (i + 1) now1

/-- Model of `Execute` with `start = 0`, so every recorded duration is the elapsed
time since entry. The dry-run branch issues no statements and no records. -/
def Execute (env : ExecEnv) (dryRun : Bool) (m : Migration) : ExecResult :=
  if dryRun then ⟨[], none⟩
  else executeLoop env m.filename (toRecord m) m.statements 0 0

/-- Time consumed by fully executing `stmts` whose first statement has
absolute index `i`: each statement costs `stmtTime`, plus the
schema-agreement wait for DDL statements. -/
def runTime (env : ExecEnv) : List (List Nat) → Nat → Nat
  | [], _ => 0
  | s :: rest, i =>
    env.stmtTime i + (if IsDDL s then env.agreeTime i else 0) + runTime env rest (i + 1)

/-! ## Concrete fixtures used by counterexamples and witnesses -/

/-- A scanned `V001__a.cql` migration record, as `ScanMigrationsDir` builds
it (contents not yet parsed). -/
def mV001 : Migration :=
  ⟨"001", "a", .versioned, "V001__a.cql", "migrations/V001__a.cql", "", [], []⟩

/-- A successful applied row of type `"undo"` for version `001`. -/
def undoRow : AppliedMigration :=
  ⟨"001", "a", "undo", "U001__a.cql", "", "host", "", 5, true⟩

def emptyFs : String → Option (List Nat) := fun _ => none

/-- A lock environment in which the row is always held and never expired. -/
def envHeldForever : AcqEnv := ⟨fun _ => .held 1000000000000000, fun _ => 0⟩

/-- A lock environment in which `GetCurrentLock` always reports the row
absent (`gocql.ErrNotFound`). -/
def envAbsent : AcqEnv := ⟨fun _ => .absent, fun _ => 0⟩

/-- A lock environment in which the row is always found already expired. -/
def envExpired : AcqEnv := ⟨fun _ => .held 0, fun _ => 0⟩

/-! ## C7 fixtures: splitter scenario S5 (apostrophes written as code 39) -/

def c7Input1 : List Nat :=
  strRunes "INSERT INTO t(name) VALUES (" ++ [39] ++ strRunes "it" ++ [39, 39] ++
    strRunes "s a test" ++ [39] ++ strRunes ");"

def c7Stmt1 : List Nat :=
  strRunes "INSERT INTO t(name) VALUES (" ++ [39] ++ strRunes "it" ++ [39, 39] ++
    strRunes "s a test" ++ [39] ++ strRunes ")"

def c7Input3 : List Nat := strRunes "CREATE TABLE \"my;table\" (id UUID PRIMARY KEY);"

def c7Stmt3 : List Nat := strRunes "CREATE TABLE \"my;table\" (id UUID PRIMARY KEY)"

/-! # Claim theorems -/

/-- C7: the statement splitter satisfies scenario S5.  On the INSERT with a
doubled apostrophe inside a single-quoted literal it returns exactly one
statement with the escape preserved verbatim (the quote is not closed); on
an unterminated block comment it fails with a parse error at EOF; on a
CREATE TABLE with a semicolon inside a double-quoted identifier it returns
exactly one statement in which that semicolon is preserved and does not
split the statement. -/
theorem c7_splitter_scenarios :
    splitStatements c7Input1 = .ok [c7Stmt1] ∧
    splitStatements (strRunes "/* x") = .error "unterminated block comment in CQL" ∧
    splitStatements c7Input3 = .ok [c7Stmt3] := by decide

/-- C1 counterexample: the claim says a successful row of type `"undo"` with
the same version does not suppress the Versioned migration, but
`GetPendingMigrations` keys its applied map by bare version with no type
filter, so the sole scanned `V001` migration is suppressed by a successful
`undo` row for version `001` and the pending result is empty. -/
theorem c1_undo_row_suppresses_versioned :
    GetPendingMigrations [mV001] emptyFs [undoRow] = .ok [] ∧
    undoRow.success = true ∧ undoRow.type = "undo" ∧
    undoRow.version = mV001.version ∧ mV001.type = MigrationType.versioned := by decide

/-- C3 counterexample: the claim says an applied row of type `"undo"` never
contributes an error string, but `ValidateAppliedChecksums` skips only
rows with `success=false` or type `"repeatable"`; a successful `undo` row
with no matching Versioned file produces the missing-file error. -/
theorem c3_undo_row_contributes_error :
    ValidateAppliedChecksums [] emptyFs [undoRow] =
      ["applied migration V001 (a) has no corresponding file"] ∧
    undoRow.success = true ∧ undoRow.type = "undo" := by decide

/-- C4 counterexample: the claim says the backoff update is
`min(2*backoff, 10s)` so no sleep exceeds 10 seconds, but the source doubles
the backoff whenever it is still below 10s, so the sleeps of a contended
`Acquire` run are 1s, 2s, 4s, 8s, 16s — the fifth sleep exceeds 10 seconds. -/
theorem c4_sleep_exceeds_ten_seconds :
    (Acquire envHeldForever 100000000000 0 5).sleeps =
      [1000000000, 2000000000, 4000000000, 8000000000, 16000000000] ∧
    16000000000 ∈ (Acquire envHeldForever 100000000000 0 5).sleeps ∧
    tenSeconds < 16000000000 := by decide

/-- C5 counterexample: the claim says that when the lock row is absent,
`Acquire` retries immediately without sleeping, but in the source the
`ErrNotFound` branch falls through to `time.Sleep(backoff)`: a run in which
the row is always absent sleeps 1s, 2s, 4s instead of never sleeping. -/
theorem c5_absent_row_sleeps :
    (Acquire envAbsent 100000000000 0 3).sleeps =
      [1000000000, 2000000000, 4000000000] ∧
    (Acquire envAbsent 100000000000 0 3).sleeps ≠ [] ∧
    envAbsent.outcome 0 = .absent := by decide

/-- C9 counterexample: the claim says `rawContent` has CRLF normalized to
LF, but the source assigns `RawContent` before the normalization, so parsing
the bytes `a CR LF b` stores `rawContent` `[97, 13, 10, 98]`, not
`[97, 10, 98]`. -/
theorem c9_rawcontent_keeps_crlf :
    ((ParseMigrationFile "V001__a.cql" [97, 13, 10, 98]).map fun p => p.rawContent) =
      .ok [97, 13, 10, 98] ∧
    ([97, 13, 10, 98] : List Nat) ≠ [97, 10, 98] := by decide

/-- C2 counterexample: the checksum is not invariant under the claimed
rewrites.  Replacing CRLF by LF in `CR CR LF` yields `CR LF` and the two
checksums differ (the single replacement pass is not idempotent), and the
checksum function does not strip the UTF-8 BOM, so prepending the BOM to the
empty content changes the checksum. -/
theorem c2_checksum_not_invariant :
    CalculateChecksumFromContent [13, 13, 10] ≠
      CalculateChecksumFromContent (replaceCRLF [13, 13, 10]) ∧
    CalculateChecksumFromContent (bomBytes ++ []) ≠
      CalculateChecksumFromContent [] := by decide

/-- C6 counterexample: `strconv.Atoi` fails beyond the `int64` range, and
the lexicographic fallback then disagrees with numeric order: for
`a = 9999999999999999999` and `b = 10000000000000000000` the comparison
returns `1` although `sign(a − b) = −1`; the overflow fallback also breaks
transitivity on digit strings (`"10" < "222…2" < "9"` yet `"10" > "9"`). -/
theorem c6_atoi_overflow_breaks_sign :
    CompareVersions "9999999999999999999" "10000000000000000000" = 1 ∧
    signInt ((digitsVal ("9999999999999999999" : String).data : Int) -
      (digitsVal ("10000000000000000000" : String).data : Int)) = -1 ∧
    CompareVersions "10" "222222222222222222222" = -1 ∧
    CompareVersions "222222222222222222222" "9" = -1 ∧
    CompareVersions "10" "9" = 1 := by decide

/-! ## C6: CompareVersions within the int64 range -/

lemma atoi_digits (l : List Char) (h1 : l ≠ []) (h2 : l.all isDigitChar = true)
    (h3 : digitsVal l ≤ maxInt64) : atoi l = some (Int.ofNat (digitsVal l)) := by
  cases l with
  | nil => exact absurd rfl h1
  | cons c rest =>
    have hall : isDigitChar c = true ∧ rest.all isDigitChar = true := by
      simpa [List.all_cons] using h2
    have hcm : ¬c = '-' := by
      intro h
      subst h
      exact absurd hall.1 (by decide)
    have hcp : ¬c = '+' := by
      intro h
      subst h
      exact absurd hall.1 (by decide)
    simp [atoi, hcm, hcp, atoiCore, h2, h3]

lemma signInt_eq_neg_one_iff (n : Int) : signInt n = -1 ↔ n < 0 := by
  unfold signInt
  split_ifs with h1 h2
  · simp [h1]
  · rw [false_iff]
    exact h1
  · rw [false_iff]
    exact h1

lemma compareVersions_digits (a b : String) (ha : a.data ≠ [])
    (ha' : a.data.all isDigitChar = true) (hav : digitsVal a.data ≤ maxInt64)
    (hb : b.data ≠ []) (hb' : b.data.all isDigitChar = true)
    (hbv : digitsVal b.data ≤ maxInt64) :
    CompareVersions a b =
      signInt ((digitsVal a.data : Int) - (digitsVal b.data : Int)) := by
  have h1 := atoi_digits a.data ha ha' hav
  have h2 := atoi_digits b.data hb hb' hbv
  simp only [CompareVersions, h1, h2, signInt, Int.ofNat_eq_coe]
  split_ifs <;> omega

/-- C6 (amended): for decimal strings whose numeric value is at most
`2^63 − 1` — the `int64` range within which `strconv.Atoi` succeeds —
`CompareVersions` computes exactly `sign(a − b)` of the numeric values; in
particular `CompareVersions("9","10") = −1` and
`CompareVersions("001","002") = −1`, and the induced relation is transitive
(so a total order up to numeric equality) on such strings.  Beyond the
`int64` range the lexicographic fallback breaks both properties
(see the counterexample). -/
theorem c6_compare_versions_sign_in_range (s t u : String)
    (hs : s.data ≠ []) (hs' : s.data.all isDigitChar = true)
    (hsv : digitsVal s.data ≤ maxInt64)
    (ht : t.data ≠ []) (ht' : t.data.all isDigitChar = true)
    (htv : digitsVal t.data ≤ maxInt64)
    (hu : u.data ≠ []) (hu' : u.data.all isDigitChar = true)
    (huv : digitsVal u.data ≤ maxInt64) :
    CompareVersions s t =
      signInt ((digitsVal s.data : Int) - (digitsVal t.data : Int)) ∧
    CompareVersions "9" "10" = -1 ∧ CompareVersions "001" "002" = -1 ∧
    (CompareVersions s t = -1 → CompareVersions t u = -1 →
      CompareVersions s u = -1) := by
  refine ⟨compareVersions_digits s t hs hs' hsv ht ht' htv, by decide, by decide, ?_⟩
  intro h1 h2
  rw [compareVersions_digits s t hs hs' hsv ht ht' htv, signInt_eq_neg_one_iff] at h1
  rw [compareVersions_digits t u ht ht' htv hu hu' huv, signInt_eq_neg_one_iff] at h2
  rw [compareVersions_digits s u hs hs' hsv hu hu' huv, signInt_eq_neg_one_iff]
  omega

/-- Witness for C6: instantiating the amended theorem at the digit strings
"9", "10", "11". -/
theorem c6_compare_versions_sign_in_range_witness :
    CompareVersions "9" "10" =
      signInt ((digitsVal ("9" : String).data : Int) -
        (digitsVal ("10" : String).data : Int)) ∧
    CompareVersions "9" "10" = -1 ∧ CompareVersions "001" "002" = -1 ∧
    (CompareVersions "9" "10" = -1 → CompareVersions "10" "11" = -1 →
      CompareVersions "9" "11" = -1) :=
  c6_compare_versions_sign_in_range "9" "10" "11"
    (by decide) (by decide) (by decide) (by decide) (by decide) (by decide)
    (by decide) (by decide) (by decide)

/-! ## C2: checksum invariance, corrected -/

lemma hasCRCRLF_tail (c : Nat) (rest : List Nat)
    (h : hasCRCRLF (c :: rest) = false) : hasCRCRLF rest = false := by
  match rest with
  | [] => rfl
  | [d] =>
    rw [hasCRCRLF.eq_2] at h
    · exact h
    · intro t _ habs
      exact absurd habs (by simp)
  | d :: e :: rest2 =>
    by_cases hp : c = 13 ∧ d = 13 ∧ e = 10
    · obtain ⟨h1, h2, h3⟩ := hp
      subst h1; subst h2; subst h3
      rw [hasCRCRLF.eq_1] at h
      exact absurd h (by simp)
    · rw [hasCRCRLF.eq_2] at h
      · exact h
      · intro t h13 habs
        injection habs with hd htail
        injection htail with he _
        exact hp ⟨h13, hd, he⟩

lemma replaceCRLF_head10 (rest t : List Nat) (h : replaceCRLF rest = 10 :: t) :
    (∃ u, rest = 10 :: u) ∨ ∃ u, rest = 13 :: 10 :: u := by
  match rest with
  | [] => exact absurd h (by simp [replaceCRLF])
  | c :: rest1 =>
    by_cases hp : c = 13 ∧ ∃ u, rest1 = 10 :: u
    · obtain ⟨h1, u, h2⟩ := hp
      subst h1; subst h2
      exact Or.inr ⟨u, rfl⟩
    · rw [replaceCRLF.eq_2] at h
      · injection h with hc _
        exact Or.inl ⟨rest1, by rw [hc]⟩
      · intro u h13 habs
        exact hp ⟨h13, u, habs⟩

lemma replaceCRLF_no_crcrlf_idem (l : List Nat) :
    hasCRCRLF l = false → replaceCRLF (replaceCRLF l) = replaceCRLF l := by
  induction l using replaceCRLF.induct with
  | case1 rest ih =>
    intro h
    have hrest : hasCRCRLF rest = false :=
      hasCRCRLF_tail 10 rest (hasCRCRLF_tail 13 (10 :: rest) h)
    rw [replaceCRLF.eq_1,
      replaceCRLF.eq_2 10 (replaceCRLF rest) (by intro t h10; exact absurd h10 (by decide)),
      ih hrest]
  | case2 c rest hguard ih =>
    intro h
    have hrest : hasCRCRLF rest = false := hasCRCRLF_tail c rest h
    rw [replaceCRLF.eq_2 c rest hguard]
    by_cases hc : c = 13
    · subst hc
      rw [replaceCRLF.eq_2 13 (replaceCRLF rest) ?_, ih hrest]
      intro t _ habs
      rcases replaceCRLF_head10 rest t habs with ⟨u, hu⟩ | ⟨u, hu⟩
      · exact hguard u rfl hu
      · subst hu
        rw [hasCRCRLF.eq_1] at h
        exact absurd h (by simp)
    · rw [replaceCRLF.eq_2 c (replaceCRLF rest)
        (fun t h13 _ => absurd h13 hc), ih hrest]
  | case3 =>
    intro _
    rfl

/-! Hex-output format of the digest. -/

def isLowerHexChar (c : Char) : Bool :=
  (48 ≤ c.toNat && c.toNat ≤ 57) || (97 ≤ c.toNat && c.toNat ≤ 102)

def isLowerHexStr (s : String) : Bool := s.data.all isLowerHexChar

lemma hexDigitChar_lower (n : Nat) (h : n < 16) :
    isLowerHexChar (hexDigitChar n) = true := by
  interval_cases n <;> decide

lemma wordHex_length (w : Nat) : (wordHex w).length = 8 := by
  rw [wordHex, List.length_map, List.length_range]

lemma wordHex_all_lower (w : Nat) : (wordHex w).all isLowerHexChar = true := by
  rw [List.all_eq_true]
  intro c hc
  obtain ⟨i, _, rfl⟩ := List.mem_map.mp hc
  exact hexDigitChar_lower _ (Nat.mod_lt _ (by norm_num))

lemma foldr_wordHex_length (ws : List Nat) :
    (ws.foldr (fun w acc => wordHex w ++ acc) []).length = 8 * ws.length := by
  induction ws with
  | nil => rfl
  | cons w ws ih =>
    simp only [List.foldr_cons, List.length_append, wordHex_length, ih, List.length_cons]
    omega

lemma foldr_wordHex_all_lower (ws : List Nat) :
    (ws.foldr (fun w acc => wordHex w ++ acc) []).all isLowerHexChar = true := by
  induction ws with
  | nil => rfl
  | cons w ws ih =>
    simp only [List.foldr_cons, List.all_append, ih, wordHex_all_lower, Bool.and_self]

lemma sha256Words_length (msg : List Nat) : (sha256Words msg).length = 8 := rfl

lemma sha256Hex_length (msg : List Nat) : (sha256Hex msg).length = 64 := by
  show ((sha256Words msg).foldr (fun w acc => wordHex w ++ acc) []).length = 64
  rw [foldr_wordHex_length, sha256Words_length]

lemma sha256Hex_lower (msg : List Nat) : isLowerHexStr (sha256Hex msg) = true := by
  show ((sha256Words msg).foldr (fun w acc => wordHex w ++ acc) []).all isLowerHexChar = true
  exact foldr_wordHex_all_lower _

lemma stripBOM_bom_append (y : List Nat) : stripBOM (bomBytes ++ y) = y := rfl

/-- C2 (amended): the checksum is the 64-character lowercase hex SHA-256 of
the content after a single left-to-right CRLF→LF pass.  The invariance
`checksum(x) = checksum(x with every CRLF replaced by LF)` holds whenever
`x` contains no CR CR LF substring (on such inputs the single pass is
idempotent; the counterexample `x = CR CR LF` shows it fails otherwise).
The checksum function itself does not strip the UTF-8 BOM — prepending a
BOM changes its result — and BOM-insensitivity holds only at the
`ParseMigrationFile` level: parsing `BOM ++ y` equals parsing `y` whenever
`y` does not itself begin with a BOM. -/
theorem c2_checksum_single_pass_invariance (x y : List Nat) (name : String) :
    (hasCRCRLF x = false →
      CalculateChecksumFromContent x = CalculateChecksumFromContent (replaceCRLF x)) ∧
    (CalculateChecksumFromContent x).length = 64 ∧
    isLowerHexStr (CalculateChecksumFromContent x) = true ∧
    (stripBOM y = y →
      ParseMigrationFile name (bomBytes ++ y) = ParseMigrationFile name y) := by
  refine ⟨?_, sha256Hex_length _, sha256Hex_lower _, ?_⟩
  · intro h
    show sha256Hex (replaceCRLF x) = sha256Hex (replaceCRLF (replaceCRLF x))
    rw [replaceCRLF_no_crcrlf_idem x h]
  · intro h
    unfold ParseMigrationFile
    rw [stripBOM_bom_append, h]

/-- Witness for C2: the amended invariance instantiated at the bytes of
`"a\r\nb"` (no CR CR LF) and at a BOM-free script. -/
theorem c2_checksum_single_pass_invariance_witness :
    CalculateChecksumFromContent [97, 13, 10, 98] =
      CalculateChecksumFromContent (replaceCRLF [97, 13, 10, 98]) ∧
    (CalculateChecksumFromContent [97, 13, 10, 98]).length = 64 ∧
    isLowerHexStr (CalculateChecksumFromContent [97, 13, 10, 98]) = true ∧
    ParseMigrationFile "w.cql" (bomBytes ++ strBytes "SELECT 1;") =
      ParseMigrationFile "w.cql" (strBytes "SELECT 1;") := by
  have h := c2_checksum_single_pass_invariance [97, 13, 10, 98]
    (strBytes "SELECT 1;") "w.cql"
  exact ⟨h.1 (by decide), h.2.1, h.2.2.1, h.2.2.2 (by decide)⟩

/-! ## C9: rawContent, corrected -/

/-- C9 (amended): after a successful `ParseMigrationFile`, `rawContent`
equals the file bytes with a leading UTF-8 BOM stripped; CRLF line endings
are NOT normalized in `rawContent` (the source assigns the field before the
normalization, which applies only to the checksum and statement inputs). -/
theorem c9_rawcontent_bom_stripped (name : String) (content : List Nat)
    (p : ParsedFile) (h : ParseMigrationFile name content = .ok p) :
    p.rawContent = stripBOM content := by
  simp only [ParseMigrationFile] at h
  split at h
  · exact Except.noConfusion h
  · injection h with h1
    subst h1
    rfl

/-- A parsed `SELECT 1;` script (checksum checked against the SHA-256 of
those bytes). -/
def parsedSelect1 : ParsedFile :=
  ⟨strBytes "SELECT 1;",
   "17db4fd369edb9244b9f91d9aeed145c3d04ad8ba6e95d06247f07a63527d11a",
   [strRunes "SELECT 1"]⟩

/-- Witness for C9 at a concrete BOM-free single-statement script. -/
theorem c9_rawcontent_bom_stripped_witness :
    parsedSelect1.rawContent = stripBOM (strBytes "SELECT 1;") :=
  c9_rawcontent_bom_stripped "V001__a.cql" (strBytes "SELECT 1;") parsedSelect1
    (by decide)

/-! ## C3: which applied rows are validated, corrected -/

/-- The error strings a single applied row contributes in
`ValidateAppliedChecksums`. -/
def validateRow (fm : List (String × Migration)) (fs : String → Option (List Nat))
    (a : AppliedMigration) : List String :=
  if ¬a.success ∨ a.type = "repeatable" then []
  else
    match alistFind fm a.version with
    | none =>
      ["applied migration V" ++ a.version ++ " (" ++ a.description ++
        ") has no corresponding file"]
    | some fileMig =>
      match readAndParse fs fileMig with
      | .error e =>
        ["failed to parse V" ++ a.version ++ " (" ++ a.description ++ "): " ++ e]
      | .ok p =>
        if p.checksum ≠ a.checksum then
          ["checksum mismatch for V" ++ a.version ++ " (" ++ a.description ++
            "): recorded=" ++ a.checksum ++ ", current=" ++ p.checksum]
        else []

lemma validateGo_cons (fm : List (String × Migration)) (fs : String → Option (List Nat))
    (a : AppliedMigration) (rest : List AppliedMigration) :
    validateGo fm fs (a :: rest) = validateRow fm fs a ++ validateGo fm fs rest := by
  simp only [validateGo, validateRow]
  by_cases h : ¬a.success = true ∨ a.type = "repeatable"
  · rw [if_pos h, if_pos h]
    rfl
  · rw [if_neg h, if_neg h]
    cases alistFind fm a.version with
    | none => rfl
    | some fileMig =>
      dsimp only
      cases readAndParse fs fileMig with
      | error e => rfl
      | ok p =>
        dsimp only
        by_cases hc : p.checksum ≠ a.checksum
        · rw [if_pos hc, if_pos hc]
          rfl
        · rw [if_neg hc, if_neg hc]
          rfl

/-- C3 (amended): `ValidateAppliedChecksums` examines exactly the applied
rows with `success = true` and type other than `"repeatable"`: filtering the
applied list down to those rows leaves the result unchanged.  In particular
a row with `success = false` or type `"repeatable"` never contributes an
error string — but a successful row of type `"undo"` IS examined and can
contribute one (see the counterexample). -/
theorem c3_validate_examines_success_nonrepeatable (migs : List Migration)
    (fs : String → Option (List Nat)) (applied : List AppliedMigration) :
    ValidateAppliedChecksums migs fs applied =
      ValidateAppliedChecksums migs fs
        (applied.filter fun a => a.success && !(a.type == "repeatable")) := by
  unfold ValidateAppliedChecksums
  induction applied with
  | nil => rfl
  | cons a rest ih =>
    rw [validateGo_cons, List.filter_cons]
    by_cases hp : (a.success && !(a.type == "repeatable")) = true
    · rw [if_pos hp, validateGo_cons, ih]
    · rw [if_neg hp, ← ih]
      have hskip : validateRow (fileMapOf migs) fs a = [] := by
        rw [validateRow, if_pos]
        rw [Bool.and_eq_true, Bool.not_eq_true', beq_eq_false_iff_ne] at hp
        by_cases hs : a.success = true
        · right
          rcases not_and.mp hp hs with h
          exact not_ne_iff.mp h
        · left
          exact hs
      rw [hskip, List.nil_append]

/-! ## C4: backoff bound, corrected -/

def allowedBackoffs : List Nat :=
  [1000000000, 2000000000, 4000000000, 8000000000, 16000000000]

lemma backoff_update_mem (b : Nat) (h : b ∈ allowedBackoffs) :
    (if b < tenSeconds then b * 2 else b) ∈ allowedBackoffs := by
  fin_cases h <;> decide

lemma acquireLoop_sleeps_allowed (env : AcqEnv) (dl : Nat) :
    ∀ fuel k now b, b ∈ allowedBackoffs →
      ∀ d ∈ (acquireLoop env dl fuel k now b).sleeps, d ∈ allowedBackoffs := by
  intro fuel
  induction fuel with
  | zero =>
    intro k now b _ d hd
    exact absurd hd (by simp [acquireLoop])
  | succ fuel ih =>
    intro k now b hb d hd
    simp only [acquireLoop] at hd
    split at hd
    · cases ho : env.outcome k <;> rw [ho] at hd <;> dsimp only at hd
      · exact absurd hd (by simp)
      · exact absurd hd (by simp)
      · rcases List.mem_cons.mp hd with h | h
        · exact h ▸ hb
        · exact ih _ _ _ (backoff_update_mem b hb) d h
      · rcases List.mem_cons.mp hd with h | h
        · exact h ▸ hb
        · exact ih _ _ _ (backoff_update_mem b hb) d h
      · rename_i e
        split at hd
        · exact ih _ _ _ hb d hd
        · rcases List.mem_cons.mp hd with h | h
          · exact h ▸ hb
          · exact ih _ _ _ (backoff_update_mem b hb) d h
    · exact absurd hd (by simp)

/-- C4 (amended): in `Acquire`, the backoff starts at 1s and is doubled
after a sleep only while it is still below 10s (the source has
`if backoff < 10s { backoff = backoff*2 }`, not `min(2*backoff, 10s)`), so
every sleep duration lies in {1s, 2s, 4s, 8s, 16s} and is bounded by 16
seconds; sleeps of 16s — exceeding the claimed 10s bound — do occur (see
the counterexample). -/
theorem c4_acquire_sleep_bounds (env : AcqEnv) (timeout start fuel d : Nat)
    (hd : d ∈ (Acquire env timeout start fuel).sleeps) :
    d ∈ allowedBackoffs ∧ d ≤ 16000000000 := by
  have hm := acquireLoop_sleeps_allowed env (start + timeout) fuel 0 start oneSecond
    (by decide) d hd
  refine ⟨hm, ?_⟩
  fin_cases hm <;> decide

/-- Witness for C4: the first sleep of a contended run. -/
theorem c4_acquire_sleep_bounds_witness :
    (1000000000 : Nat) ∈ allowedBackoffs ∧ (1000000000 : Nat) ≤ 16000000000 :=
  c4_acquire_sleep_bounds envHeldForever 100000000000 0 1 1000000000 (by decide)

/-! ## C5: expired-lock stealing versus absent row, corrected -/

/-- C5 (amended): when the compare-and-set insert is not applied and the
current lock row is found expired, `Acquire` force-releases it and retries
immediately — a run in which every probe finds an expired row performs no
sleep at all.  But when the lock row is absent (`gocql.ErrNotFound`), the
source falls through to `time.Sleep(backoff)`: the iteration sleeps the
current backoff before retrying, contrary to the claimed immediate retry. -/
theorem c5_expired_steal_no_sleep_absent_sleeps :
    (∀ (env : AcqEnv) (dl fuel k now b : Nat),
      (∀ j, env.outcome j = .held 0) → 0 < now →
      (acquireLoop env dl fuel k now b).sleeps = []) ∧
    (∀ (env : AcqEnv) (dl fuel k now b : Nat),
      env.outcome k = .absent → now < dl →
      (acquireLoop env dl (fuel + 1) k now b).sleeps.head? = some b) := by
  constructor
  · intro env dl fuel
    induction fuel with
    | zero =>
      intro k now b _ _
      rfl
    | succ fuel ih =>
      intro k now b henv hnow
      simp only [acquireLoop]
      split
      · rw [henv k]
        dsimp only
        rw [if_pos (by omega)]
        exact ih (k + 1) (now + env.cost k) b henv (by omega)
      · rfl
  · intro env dl fuel k now b henv hlt
    simp only [acquireLoop]
    rw [if_pos hlt, henv]
    rfl

/-- Witness for C5: a run over expired rows never sleeps; a run hitting an
absent row sleeps the current backoff. -/
theorem c5_expired_steal_no_sleep_absent_sleeps_witness :
    (acquireLoop envExpired 10 3 0 1 oneSecond).sleeps = [] ∧
    (acquireLoop envAbsent 100 (2 + 1) 0 0 oneSecond).sleeps.head? =
      some oneSecond :=
  ⟨c5_expired_steal_no_sleep_absent_sleeps.1 envExpired 10 3 0 1 oneSecond
      (fun _ => rfl) (by decide),
   c5_expired_steal_no_sleep_absent_sleeps.2 envAbsent 100 2 0 0 oneSecond
      rfl (by decide)⟩

/-! ## Lookup characterization of the Go maps over applied rows -/

lemma find?_append_match {α : Type} (l1 l2 : List α) (p : α → Bool) :
    (l1 ++ l2).find? p =
      match l1.find? p with
      | some x => some x
      | none => l2.find? p := by
  induction l1 with
  | nil => rfl
  | cons a rest ih =>
    by_cases hp : p a = true
    · simp [List.find?_cons, hp]
    · simp only [List.cons_append, List.find?_cons, Bool.not_eq_true] at hp ⊢
      rw [hp]
      exact ih

lemma goMapOf_find_gen (f : AppliedMigration → Bool) (k : String) :
    ∀ (applied : List AppliedMigration) (acc : List (String × AppliedMigration)),
      alistFind (applied.foldl
          (fun m a => if f a then alistInsert m a.version a else m) acc) k =
        match applied.reverse.find? (fun a => f a && decide (a.version = k)) with
        | some a => some a
        | none => alistFind acc k := by
  intro applied
  induction applied with
  | nil =>
    intro acc
    rfl
  | cons a rest ih =>
    intro acc
    rw [List.foldl_cons, ih, List.reverse_cons, find?_append_match]
    cases hr : rest.reverse.find? (fun a => f a && decide (a.version = k)) with
    | some b => rfl
    | none =>
      dsimp only [List.find?]
      by_cases hf : f a = true
      · rw [if_pos hf]
        by_cases hv : a.version = k
        · simp [hf, hv, alistFind, alistInsert, List.find?_cons]
        · simp [hf, hv, alistFind, alistInsert, List.find?_cons]
      · rw [if_neg hf]
        simp only [Bool.not_eq_true] at hf
        rw [hf]
        rfl

lemma goMapOf_find (f : AppliedMigration → Bool) (applied : List AppliedMigration)
    (k : String) :
    alistFind (goMapOf f applied) k =
      applied.reverse.find? (fun a => f a && decide (a.version = k)) := by
  rw [goMapOf, goMapOf_find_gen]
  cases applied.reverse.find? (fun a => f a && decide (a.version = k)) <;> rfl

lemma goMapOf_find_none_iff (f : AppliedMigration → Bool)
    (applied : List AppliedMigration) (k : String) :
    alistFind (goMapOf f applied) k = none ↔
      ∀ a ∈ applied, f a = true → a.version ≠ k := by
  rw [goMapOf_find, List.find?_eq_none]
  constructor
  · intro h a ha hf hv
    have := h a (List.mem_reverse.mpr ha)
    simp [hf, hv] at this
  · intro h a ha
    have := h a (List.mem_reverse.mp ha)
    by_cases hf : f a = true
    · simp [hf, this hf]
    · simp [hf]

/-! ## C10: status of Undo files -/

lemma statusKey_undo (m : Migration) (h : m.type = .undo) : statusKey m = m.version := by
  rw [statusKey, if_neg]
  rw [h]
  intro hc
  exact MigrationType.noConfusion hc

/-- C10: the status command indexes applied rows by their bare version
string regardless of type, so an Undo file is reported `Available` exactly
when no applied row at all shares its version key; when some applied row
shares the version (for example the successful row of its Versioned
partner), the Undo file is reported `Applied` or `Failed` instead. -/
theorem c10_status_undo_available_iff (applied : List AppliedMigration)
    (m : Migration) (h : m.type = .undo) :
    ((statusEntryFor applied m).status = "Available" ↔
      ∀ a ∈ applied, a.version ≠ m.version) ∧
    ((∃ a ∈ applied, a.version = m.version) →
      (statusEntryFor applied m).status = "Applied" ∨
        (statusEntryFor applied m).status = "Failed") := by
  have hkey := statusKey_undo m h
  constructor
  · simp only [statusEntryFor, hkey]
    cases hf : alistFind (goMapOf (fun _ => true) applied) m.version with
    | none =>
      dsimp only
      rw [h]
      have hnone := (goMapOf_find_none_iff (fun _ => true) applied m.version).mp hf
      constructor
      · intro _ a ha
        exact hnone a ha rfl
      · intro _
        rfl
    | some a =>
      dsimp only
      have hmem : a ∈ applied ∧ a.version = m.version := by
        rw [goMapOf_find] at hf
        have h1 := List.mem_of_find?_eq_some hf
        have h2 := List.find?_some hf
        simp only [Bool.true_and, decide_eq_true_eq] at h2
        exact ⟨List.mem_reverse.mp h1, h2⟩
      constructor
      · intro hs
        by_cases hsucc : a.success = true <;> simp [hsucc] at hs
      · intro hall
        exact absurd hmem.2 (hall a hmem.1)
  · intro hex
    simp only [statusEntryFor, hkey]
    cases hf : alistFind (goMapOf (fun _ => true) applied) m.version with
    | none =>
      rw [goMapOf_find_none_iff] at hf
      obtain ⟨a, ha, hv⟩ := hex
      exact absurd hv (hf a ha rfl)
    | some a =>
      dsimp only
      by_cases hsucc : a.success = true
      · left
        simp [hsucc]
      · right
        simp [hsucc]

/-! ## C8: executor bookkeeping -/

lemma executeLoop_fail (env : ExecEnv) (file : String) (rec : MigrationRecord) :
    ∀ (stmts : List (List Nat)) (i0 now i : Nat) (e : String),
      i < stmts.length →
      (∀ j, j < i → env.stmtErr (i0 + j) = none ∧
        (IsDDL (stmts.getD j []) = true → env.agreeErr (i0 + j) = none)) →
      env.stmtErr (i0 + i) = some e →
      executeLoop env file rec stmts i0 now =
        ⟨[⟨rec, now + runTime env (stmts.take i) i0 + env.stmtTime (i0 + i), false⟩],
         some ("failed to execute statement " ++ toString (i0 + i + 1) ++ " in " ++
           file ++ ": " ++ e)⟩ := by
  intro stmts
  induction stmts with
  | nil =>
    intro i0 now i e hi
    exact absurd hi (by simp)
  | cons s rest ih =>
    intro i0 now i e hi hprev hfail
    cases i with
    | zero =>
      have hfail' : env.stmtErr i0 = some e := hfail
      simp only [executeLoop]
      rw [hfail']
      simp [runTime]
    | succ i' =>
      have h0 := hprev 0 (Nat.succ_pos i')
      have h0s : env.stmtErr i0 = none := h0.1
      have hi' : i' < rest.length := by simpa using hi
      have hprev' : ∀ j, j < i' → env.stmtErr (i0 + 1 + j) = none ∧
          (IsDDL (rest.getD j []) = true → env.agreeErr (i0 + 1 + j) = none) := by
        intro j hj
        have hp := hprev (j + 1) (by omega)
        have harith : i0 + (j + 1) = i0 + 1 + j := by omega
        rw [harith] at hp
        exact hp
      have hfail' : env.stmtErr (i0 + 1 + i') = some e := by
        have harith : i0 + (i' + 1) = i0 + 1 + i' := by omega
        rw [← harith]
        exact hfail
      simp only [executeLoop]
      rw [h0s]
      dsimp only
      by_cases hddl : IsDDL s = true
      · rw [if_pos hddl]
        have hagree : env.agreeErr i0 = none := h0.2 hddl
        rw [hagree]
        dsimp only
        rw [ih (i0 + 1) (now + env.stmtTime i0 + env.agreeTime i0) i' e hi' hprev' hfail']
        have harith : i0 + 1 + i' = i0 + (i' + 1) := by omega
        rw [harith, List.take_succ_cons]
        simp only [runTime, if_pos hddl, ExecResult.mk.injEq, List.cons.injEq,
          RecordCall.mk.injEq, and_true, true_and]
        omega
      · rw [if_neg hddl]
        rw [ih (i0 + 1) (now + env.stmtTime i0) i' e hi' hprev' hfail']
        have harith : i0 + 1 + i' = i0 + (i' + 1) := by omega
        rw [harith, List.take_succ_cons]
        simp only [runTime, if_neg hddl, ExecResult.mk.injEq, List.cons.injEq,
          RecordCall.mk.injEq, and_true, true_and]
        omega

lemma executeLoop_success (env : ExecEnv) (file : String) (rec : MigrationRecord) :
    ∀ (stmts : List (List Nat)) (i0 now : Nat),
      (∀ j, j < stmts.length → env.stmtErr (i0 + j) = none ∧
        (IsDDL (stmts.getD j []) = true → env.agreeErr (i0 + j) = none)) →
      env.recordErr = none →
      executeLoop env file rec stmts i0 now =
        ⟨[⟨rec, now + runTime env stmts i0, true⟩], none⟩ := by
  intro stmts
  induction stmts with
  | nil =>
    intro i0 now _ hrec
    simp only [executeLoop]
    rw [hrec]
    simp [runTime]
  | cons s rest ih =>
    intro i0 now hok hrec
    have h0 := hok 0 (Nat.succ_pos rest.length)
    have h0s : env.stmtErr i0 = none := h0.1
    have hok' : ∀ j, j < rest.length → env.stmtErr (i0 + 1 + j) = none ∧
        (IsDDL (rest.getD j []) = true → env.agreeErr (i0 + 1 + j) = none) := by
      intro j hj
      have hp := hok (j + 1) (by simpa using Nat.succ_lt_succ hj)
      have harith : i0 + (j + 1) = i0 + 1 + j := by omega
      rw [harith] at hp
      exact hp
    simp only [executeLoop]
    rw [h0s]
    dsimp only
    by_cases hddl : IsDDL s = true
    · rw [if_pos hddl]
      have hagree : env.agreeErr i0 = none := h0.2 hddl
      rw [hagree]
      dsimp only
      rw [ih (i0 + 1) (now + env.stmtTime i0 + env.agreeTime i0) hok' hrec]
      simp only [runTime, if_pos hddl, ExecResult.mk.injEq, List.cons.injEq,
        RecordCall.mk.injEq, and_true, true_and]
      omega
    · rw [if_neg hddl]
      rw [ih (i0 + 1) (now + env.stmtTime i0) hok' hrec]
      simp only [runTime, if_neg hddl, ExecResult.mk.injEq, List.cons.injEq,
        RecordCall.mk.injEq, and_true, true_and]
      omega

/-- C8: in a non-dry-run `Execute`, if the `i`-th statement (0-based `i`)
fails after all earlier statements (and their DDL schema-agreement waits)
succeeded, exactly one metadata row is recorded, with `success = false` and
the elapsed time up to and including the failing call, and the returned
error names the 1-based statement index `i+1` and the migration's filename;
if every statement (and DDL wait) succeeds and the metadata write goes
through, exactly one row with `success = true` and the total elapsed time
is recorded and no error is returned. -/
theorem c8_executor_records_and_errors (env : ExecEnv) (m : Migration) :
    (∀ i e, i < m.statements.length →
      (∀ j, j < i → env.stmtErr j = none ∧
        (IsDDL (m.statements.getD j []) = true → env.agreeErr j = none)) →
      env.stmtErr i = some e →
      Execute env false m =
        ⟨[⟨toRecord m, runTime env (m.statements.take i) 0 + env.stmtTime i, false⟩],
         some ("failed to execute statement " ++ toString (i + 1) ++ " in " ++
           m.filename ++ ": " ++ e)⟩) ∧
    ((∀ j, j < m.statements.length → env.stmtErr j = none ∧
        (IsDDL (m.statements.getD j []) = true → env.agreeErr j = none)) →
      env.recordErr = none →
      Execute env false m =
        ⟨[⟨toRecord m, runTime env m.statements 0, true⟩], none⟩) := by
  have hexec : Execute env false m =
      executeLoop env m.filename (toRecord m) m.statements 0 0 := rfl
  constructor
  · intro i e hi hprev hfail
    rw [hexec, executeLoop_fail env m.filename (toRecord m) m.statements 0 0 i e hi
      (fun j hj => by rw [Nat.zero_add]; exact hprev j hj)
      (by rw [Nat.zero_add]; exact hfail)]
    simp [Nat.zero_add]
  · intro hok hrec
    rw [hexec, executeLoop_success env m.filename (toRecord m) m.statements 0 0
      (fun j hj => by rw [Nat.zero_add]; exact hok j hj) hrec]
    simp [Nat.zero_add]

/-- A two-statement migration whose second statement will fail in the
witness environment. -/
def mExec : Migration :=
  ⟨"002", "b", .versioned, "V002__b.cql", "migrations/V002__b.cql", "",
   [strRunes "SELECT 1", strRunes "SELECT 2"], []⟩

/-- Witness environment: statement 0 succeeds taking 1 time unit,
statement 1 fails with "boom" after 2 more units. -/
def envW : ExecEnv :=
  ⟨fun i => if i = 1 then some "boom" else none, fun _ => none, none, fun i => i + 1,
   fun _ => 0⟩

/-- Witness for C8: the failing run records one `success=false` row with
the elapsed time 3 and reports statement 2 of `V002__b.cql`. -/
theorem c8_executor_records_and_errors_witness :
    Execute envW false mExec =
      ⟨[⟨toRecord mExec,
         runTime envW (mExec.statements.take 1) 0 + envW.stmtTime 1, false⟩],
       some ("failed to execute statement " ++ toString (1 + 1) ++ " in " ++
         mExec.filename ++ ": " ++ "boom")⟩ :=
  (c8_executor_records_and_errors envW mExec).1 1 "boom" (by decide)
    (fun j hj => by
      interval_cases j
      exact ⟨rfl, fun _ => rfl⟩)
    rfl

/-! ## C10 witness fixtures -/

def u001Mig : Migration :=
  ⟨"001", "drop a", .undo, "U001__drop_a.cql", "migrations/U001__drop_a.cql", "", [], []⟩

def vRow : AppliedMigration :=
  ⟨"001", "a", "versioned", "V001__a.cql", "ck", "host", "2024-01-01 00:00:00", 10, true⟩

/-- Witness for C10: with no applied rows the Undo file is `Available`; with
its Versioned partner's successful row applied, it is `Applied` or
`Failed`. -/
theorem c10_status_undo_available_iff_witness :
    ((statusEntryFor [] u001Mig).status = "Available" ↔
      ∀ a ∈ ([] : List AppliedMigration), a.version ≠ u001Mig.version) ∧
    ((statusEntryFor [vRow] u001Mig).status = "Applied" ∨
      (statusEntryFor [vRow] u001Mig).status = "Failed") :=
  ⟨(c10_status_undo_available_iff [] u001Mig rfl).1,
   (c10_status_undo_available_iff [vRow] u001Mig rfl).2 ⟨vRow, by simp, rfl⟩⟩

/-! ## C1: which applied rows suppress a Versioned migration -/

lemma exists_versioned_cons_ne (m : Migration) (l : List Migration) (v : String)
    (h : m.type ≠ .versioned) :
    (∃ x, x ∈ m :: l ∧ x.type = .versioned ∧ x.version = v) ↔
    (∃ x, x ∈ l ∧ x.type = .versioned ∧ x.version = v) := by
  constructor
  · rintro ⟨x, hx, ht, hv⟩
    rcases List.mem_cons.mp hx with rfl | hx'
    · exact absurd ht h
    · exact ⟨x, hx', ht, hv⟩
  · rintro ⟨x, hx, ht, hv⟩
    exact ⟨x, List.mem_cons_of_mem _ hx, ht, hv⟩

lemma getPendingGo_versioned_mem (am : List (String × AppliedMigration))
    (fs : String → Option (List Nat)) :
    ∀ (migs l : List Migration), getPendingGo am fs migs = .ok l → ∀ v : String,
      ((∃ x, x ∈ l ∧ x.type = .versioned ∧ x.version = v) ↔
       (∃ x, x ∈ migs ∧ x.type = .versioned ∧ x.version = v) ∧
         alistFind am v = none) := by
  intro migs
  induction migs with
  | nil =>
    intro l h v
    injection h with h1
    subst h1
    simp
  | cons m rest ih =>
    intro l h v
    cases hmt : m.type with
    | versioned =>
      simp only [getPendingGo, hmt] at h
      cases hl : alistFind am m.version with
      | some a =>
        rw [hl] at h
        rw [ih l h v]
        constructor
        · rintro ⟨⟨x, hx, ht, hv⟩, hfind⟩
          exact ⟨⟨x, List.mem_cons_of_mem _ hx, ht, hv⟩, hfind⟩
        · rintro ⟨⟨x, hx, ht, hv⟩, hfind⟩
          rcases List.mem_cons.mp hx with rfl | hx'
          · rw [hv] at hl
            rw [hfind] at hl
            exact Option.noConfusion hl
          · exact ⟨⟨x, hx', ht, hv⟩, hfind⟩
      | none =>
        rw [hl] at h
        cases hp : readAndParse fs m with
        | error e =>
          rw [hp] at h
          exact Except.noConfusion h
        | ok p =>
          rw [hp] at h
          cases hrec : getPendingGo am fs rest with
          | error e2 =>
            rw [hrec] at h
            exact Except.noConfusion h
          | ok l' =>
            rw [hrec] at h
            simp only [Except.map] at h
            injection h with h1
            subst h1
            have hr := ih l' hrec v
            constructor
            · rintro ⟨x, hx, ht, hv⟩
              rcases List.mem_cons.mp hx with rfl | hx'
              · refine ⟨⟨m, List.mem_cons_self _ _, hmt, hv⟩, ?_⟩
                rw [← hv]
                exact hl
              · obtain ⟨⟨x2, hx2, ht2, hv2⟩, hfind⟩ := hr.mp ⟨x, hx', ht, hv⟩
                exact ⟨⟨x2, List.mem_cons_of_mem _ hx2, ht2, hv2⟩, hfind⟩
            · rintro ⟨⟨x, hx, ht, hv⟩, hfind⟩
              rcases List.mem_cons.mp hx with rfl | hx'
              · exact ⟨withParsed x p, List.mem_cons_self _ _, ht, hv⟩
              · obtain ⟨x2, hx2, ht2, hv2⟩ := hr.mpr ⟨⟨x, hx', ht, hv⟩, hfind⟩
                exact ⟨x2, List.mem_cons_of_mem _ hx2, ht2, hv2⟩
    | undo =>
      simp only [getPendingGo, hmt] at h
      rw [exists_versioned_cons_ne m rest v
        (by rw [hmt]; exact fun hc => MigrationType.noConfusion hc)]
      exact ih l h v
    | repeatable =>
      have hmne : m.type ≠ MigrationType.versioned := by
        rw [hmt]
        exact fun hc => MigrationType.noConfusion hc
      simp only [getPendingGo, hmt] at h
      cases hp : readAndParse fs m with
      | error e =>
        rw [hp] at h
        exact Except.noConfusion h
      | ok p =>
        rw [hp] at h
        cases hk : alistFind am (m.version ++ "_" ++ m.description) with
        | none =>
          rw [hk] at h
          cases hrec : getPendingGo am fs rest with
          | error e2 =>
            rw [hrec] at h
            exact Except.noConfusion h
          | ok l' =>
            rw [hrec] at h
            simp only [Except.map] at h
            injection h with h1
            subst h1
            rw [exists_versioned_cons_ne (withParsed m p) l' v hmne,
              exists_versioned_cons_ne m rest v hmne]
            exact ih l' hrec v
        | some a =>
          rw [hk] at h
          dsimp only at h
          by_cases hcs : a.checksum ≠ p.checksum
          · rw [if_pos hcs] at h
            cases hrec : getPendingGo am fs rest with
            | error e2 =>
              rw [hrec] at h
              exact Except.noConfusion h
            | ok l' =>
              rw [hrec] at h
              simp only [Except.map] at h
              injection h with h1
              subst h1
              rw [exists_versioned_cons_ne (withParsed m p) l' v hmne,
                exists_versioned_cons_ne m rest v hmne]
              exact ih l' hrec v
          · rw [if_neg hcs] at h
            rw [exists_versioned_cons_ne m rest v hmne]
            exact ih l h v

/-- C1 (amended): `GetPendingMigrations` builds its applied map from ALL
rows with `success = true`, Undo rows included, so a scanned Versioned
migration's version appears in the pending result exactly when the applied
list contains no successful row OF ANY TYPE whose version equals the
migration's version: a successful row of type `"undo"` with the same
version DOES suppress the Versioned migration (see the counterexample). -/
theorem c1_pending_versioned_characterization (migs : List Migration)
    (fs : String → Option (List Nat)) (applied : List AppliedMigration)
    (l : List Migration) (h : GetPendingMigrations migs fs applied = .ok l)
    (v : String) :
    (∃ x, x ∈ l ∧ x.type = .versioned ∧ x.version = v) ↔
    ((∃ x, x ∈ migs ∧ x.type = .versioned ∧ x.version = v) ∧
     ∀ a ∈ applied, a.success = true → a.version ≠ v) := by
  have h1 := getPendingGo_versioned_mem (goMapOf (fun a => a.success) applied) fs
    migs l h v
  have h2 := goMapOf_find_none_iff (fun a => a.success) applied v
  rw [h2] at h1
  simpa using h1

/-- The file system holding the single script of `mV001`. -/
def fsSelect1 : String → Option (List Nat) := fun p =>
  if p = "migrations/V001__a.cql" then some (strBytes "SELECT 1;") else none

/-- Witness for C1: with no applied rows, the scanned `V001` migration is
pending. -/
theorem c1_pending_versioned_characterization_witness :
    (∃ x, x ∈ [withParsed mV001 parsedSelect1] ∧
        x.type = MigrationType.versioned ∧ x.version = "001") ↔
    ((∃ x, x ∈ [mV001] ∧ x.type = MigrationType.versioned ∧ x.version = "001") ∧
     ∀ a ∈ ([] : List AppliedMigration), a.success = true → a.version ≠ "001") :=
  c1_pending_versioned_characterization [mV001] fsSelect1 []
    [withParsed mV001 parsedSelect1] (by decide) "001"

end ScyllaMigrate
